import Mathlib

/-!
# Verification of the green-threads runtime (`src/main.rs`)

Shallow embedding of the cooperative green-threads runtime: a fixed pool of
`MAX_THREADS` thread records, a `current` index, round-robin selection in
`t_yield`, stack priming in `spawn`, and the `t_return` completion path.

Modelling conventions:
* Machine registers are held abstractly: the `switch` assembly primitive's
  register save/restore is machine state outside the scheduler's data, so a
  call to `switch(&mut threads[old].ctx, &threads[pos].ctx)` is recorded as
  the event `(old, pos)` in a `switches` log rather than mutating registers.
* The raw 8-byte `ptr::write`s that `spawn` performs into a stack buffer are
  recorded in a chronological write log `stackWrites` of
  (byte offset from the buffer base, code address written) pairs, and the
  buffer's base address is carried abstractly as `stackBase` (a `Vec<u8>`
  allocation may land at any address, its element alignment being 1).
* Rust's `threads[i]` indexing is total here via `threadAt` (a default
  thread whose state is `Available`); every theorem that relies on an index
  carries the bound under which the Rust indexing cannot panic.
-/

namespace GreenThreads

/-- Constant `DEFAULT_STACK_SIZE` from the source: 2 MiB per thread stack. -/
def DEFAULT_STACK_SIZE : Nat := 1024 * 1024 * 2

/-- Constant `MAX_THREADS` from the source: the fixed pool capacity. -/
def MAX_THREADS : Nat := 4

/-- The `State` enum of a thread record. -/
inductive State where
  | Available
  | Running
  | Ready
deriving DecidableEq, Repr

/-- A code address written onto a primed stack: either the address of the
`guard` return-trampoline function, or the address of a spawned body `f`
(bodies are identified by an abstract numeric address). -/
inductive CodeAddr where
  | guard
  | body (f : Nat)
deriving DecidableEq, Repr

/-- Structure `ThreadContext`: the seven saved registers (`rsp`, `r15`, `r14`, `r13`,
`r12`, `rbx`, `rbp`), each a 64-bit word modelled as `Nat`. Only `rsp` is
ever written by scheduler code (`spawn`'s priming step). -/
structure ThreadContext where
  rsp : Nat
  r15 : Nat
  r14 : Nat
  r13 : Nat
  r12 : Nat
  rbx : Nat
  rbp : Nat
deriving DecidableEq, Repr

/-- Default context `ThreadContext::default()`: all registers zero. -/
def ThreadContext.default : ThreadContext :=
  { rsp := 0, r15 := 0, r14 := 0, r13 := 0, r12 := 0, rbx := 0, rbp := 0 }

instance : Inhabited ThreadContext := ⟨ThreadContext.default⟩

/-- A `Thread` record: id, stack buffer (base address, length, and the log of
raw 8-byte writes into it), register context, and state tag. -/
structure Thread where
  id : Nat
  stackBase : Nat
  stackLen : Nat
  stackWrites : List (Nat × CodeAddr)
  ctx : ThreadContext
  state : State
deriving DecidableEq, Repr

/-- Constructor `Thread::new(id)`: an `Available` record with a fresh 2 MiB stack and a
zeroed context. `base` is the (abstract) address of the stack allocation. -/
def Thread.new (id base : Nat) : Thread :=
  { id := id, stackBase := base, stackLen := DEFAULT_STACK_SIZE,
    stackWrites := [], ctx := ThreadContext.default, state := State.Available }

instance : Inhabited Thread := ⟨Thread.new 0 0⟩

/-- The `Runtime`: the pool of thread records and the index of the thread
presently executing. -/
structure Runtime where
  threads : List Thread
  current : Nat
deriving DecidableEq, Repr

/-- Indexing `self.threads[i]`, totalised with a default record (see module header). -/
def threadAt (ts : List Thread) (i : Nat) : Thread := ts.getD i default

/-- Constructor `Runtime::new()`: a base thread (id 0, state `Running`) followed by
`MAX_THREADS - 1` available records with ids `1..MAX_THREADS`; `current = 0`.
`bases` gives each record's stack-buffer base address. -/
def Runtime.new (bases : Nat → Nat) : Runtime :=
  { threads :=
      { id := 0, stackBase := bases 0, stackLen := DEFAULT_STACK_SIZE,
        stackWrites := [], ctx := ThreadContext.default,
        state := State.Running } ::
      (List.range' 1 (MAX_THREADS - 1)).map (fun i => Thread.new i (bases i)),
    current := 0 }

/-- The wrap step of the scan loop: `pos += 1; if pos == len { pos = 0 }`
applied to the already-incremented index. -/
def wrapIdx (len p : Nat) : Nat := if p = len then 0 else p

/-- The scan loop of `Runtime::t_yield`: starting at `pos`, look for a
record in state `Ready`; on each miss increment `pos`, wrap at
`threads.len()`, and give up (`none`) when the scan returns to `current`.
The Rust loop needs no fuel; here the structural fuel argument only has to
dominate the loop's iteration count (`threads.length + 1` suffices, since
the loop checks each index at most once before returning to `current`). -/
def scanFrom (ts : List Thread) (current : Nat) : Nat → Nat → Option Nat
  | _pos, 0 => none
  | pos, fuel + 1 =>
    if (threadAt ts pos).state = State.Ready then some pos
    else if wrapIdx ts.length (pos + 1) = current then none
    else scanFrom ts current (wrapIdx ts.length (pos + 1)) fuel

/-- The selection performed by `t_yield`: the scan starts at
`pos = self.current` (whose record is examined first). -/
def selectNext (rt : Runtime) : Option Nat :=
  scanFrom rt.threads rt.current rt.current (rt.threads.length + 1)

/-- Result of one `t_yield` (or `t_return`) call observed at the operation
boundary: the new runtime state, the boolean return value, and the log of
`switch` invocations `(old_pos, pos)` performed. -/
structure YieldResult where
  rt : Runtime
  ret : Bool
  switches : List (Nat × Nat)
deriving DecidableEq, Repr

/-- Operation `Runtime::t_yield`: scan for a `Ready` record; if none, return `false`
with no state change.  Otherwise demote the current record to `Ready`
unless it is `Available`, promote the found record to `Running`, move
`current`, and invoke `switch(&mut threads[old_pos].ctx, &threads[pos].ctx)`
exactly once; the call then returns `self.threads.len() > 0`. -/
def t_yield (rt : Runtime) : YieldResult :=
  match selectNext rt with
  | none => { rt := rt, ret := false, switches := [] }
  | some pos =>
    let ts := rt.threads
    let ts :=
      if (threadAt ts rt.current).state ≠ State.Available then
        ts.set rt.current { threadAt ts rt.current with state := State.Ready }
      else ts
    let ts := ts.set pos { threadAt ts pos with state := State.Running }
    let old_pos := rt.current
    { rt := { threads := ts, current := pos },
      ret := decide (0 < ts.length),
      switches := [(old_pos, pos)] }

/-- The assignment `self.threads[self.current].state = State::Available`
performed by `t_return` on a non-base slot. -/
def markAvailable (rt : Runtime) : Runtime :=
  { rt with
    threads := rt.threads.set rt.current
      ({ threadAt rt.threads rt.current with state := State.Available }) }

/-- Operation `Runtime::t_return`: if `current` is not the base slot, mark the current
record `Available` and immediately `t_yield`; otherwise do nothing.  The
pair returned is the final runtime state and the switch log. -/
def t_return (rt : Runtime) : Runtime × List (Nat × Nat) :=
  if rt.current ≠ 0 then
    let r := t_yield (markAvailable rt)
    (r.rt, r.switches)
  else
    (rt, [])

/-- The mutation `spawn` performs on the chosen `Available` record: with
`size = available.stack.len()`, write `guard as u64` at byte offset
`size - 24`, write `f as u64` at byte offset `size - 32`, set the saved
`rsp` to the address of the `f` word (`s_ptr.offset(size - 32)`), and mark
the record `Ready`. -/
def primed (t : Thread) (f : Nat) : Thread :=
  { t with
    stackWrites := t.stackWrites ++
      [(t.stackLen - 24, CodeAddr.guard), (t.stackLen - 32, CodeAddr.body f)],
    ctx := { t.ctx with rsp := t.stackBase + (t.stackLen - 32) },
    state := State.Ready }

/-- Operation `Runtime::spawn(f)`: find the first `Available` record
(`iter_mut().find(..)`), failing with the `expect` message if none;
otherwise prime that record (see `primed`). -/
def spawn (rt : Runtime) (f : Nat) : Except String Runtime :=
  match rt.threads.findIdx? (fun t => t.state == State.Available) with
  | none => Except.error ("no available thread.")
  | some i =>
    Except.ok { rt with
      threads := rt.threads.set i (primed (threadAt rt.threads i) f) }

/-- One operation at the Runtime's boundary: a successful `spawn`, a
`t_yield` (as invoked by `run`/`yield_thread`), or a `t_return` (as invoked
by the `guard` trampoline). -/
inductive Step : Runtime → Runtime → Prop where
  | spawn (rt : Runtime) (f : Nat) (rt' : Runtime)
      (h : spawn rt f = Except.ok rt') : Step rt rt'
  | t_yield (rt : Runtime) : Step rt (t_yield rt).rt
  | t_return (rt : Runtime) : Step rt (t_return rt).1

/-- States reachable from `Runtime::new()` by any sequence of operations. -/
inductive Reachable (bases : Nat → Nat) : Runtime → Prop where
  | new : Reachable bases (Runtime.new bases)
  | step {rt rt' : Runtime} :
      Reachable bases rt → Step rt rt' → Reachable bases rt'

/-- The scheduler invariant: the pool has its construction-time size,
`current` is in range and indexes the unique `Running` record, and the base
record (slot 0) is never `Available`. -/
def Inv (rt : Runtime) : Prop :=
  rt.threads.length = MAX_THREADS ∧
  rt.current < rt.threads.length ∧
  (threadAt rt.threads rt.current).state = State.Running ∧
  (∀ i < rt.threads.length,
    i ≠ rt.current → (threadAt rt.threads i).state ≠ State.Running) ∧
  (threadAt rt.threads 0).state ≠ State.Available

/-! ## Basic lemmas about indexing and the scan loop -/

theorem threadAt_of_len_le {ts : List Thread} {i : Nat} (h : ts.length ≤ i) :
    threadAt ts i = default := by
  simp [threadAt, List.getD_eq_getElem?_getD, List.getElem?_eq_none h]

theorem threadAt_set_self {ts : List Thread} {i : Nat} {t : Thread}
    (h : i < ts.length) : threadAt (ts.set i t) i = t := by
  simp [threadAt, List.getD_eq_getElem?_getD, List.getElem?_set_self h]

theorem threadAt_set_ne {ts : List Thread} {i j : Nat} {t : Thread}
    (h : i ≠ j) : threadAt (ts.set i t) j = threadAt ts j := by
  simp [threadAt, List.getD_eq_getElem?_getD, List.getElem?_set_ne h]

theorem wrapIdx_lt {len p : Nat} (h1 : 0 < len) (h2 : p ≤ len) :
    wrapIdx len p < len := by
  unfold wrapIdx
  split <;> omega

theorem wrapIdx_eq_mod {len p : Nat} (h1 : 0 < len) (h2 : p ≤ len) :
    wrapIdx len p = p % len := by
  unfold wrapIdx
  split
  · rename_i h
    subst h
    rw [Nat.mod_self]
  · rw [Nat.mod_eq_of_lt (by omega)]

theorem add_mod_ne_self {c k n : Nat} (hc : c < n) (hk : 0 < k) (hk2 : k < n) :
    (c + k) % n ≠ c := by
  rcases Nat.lt_or_ge (c + k) n with h | h
  · rw [Nat.mod_eq_of_lt h]; omega
  · rw [Nat.mod_eq_sub_mod h, Nat.mod_eq_of_lt (by omega)]; omega

/-- A found index always holds a `Ready` record. -/
theorem scanFrom_some_ready {ts : List Thread} {c : Nat} :
    ∀ {fuel p pos : Nat}, scanFrom ts c p fuel = some pos →
      (threadAt ts pos).state = State.Ready := by
  intro fuel
  induction fuel with
  | zero => intro p pos h; simp [scanFrom] at h
  | succ fuel ih =>
    intro p pos h
    rw [scanFrom] at h
    split_ifs at h with h1 h2
    · cases h; exact h1
    · exact ih h

/-- A found index is in range, provided the scan starts in range. -/
theorem scanFrom_some_lt {ts : List Thread} {c : Nat} :
    ∀ {fuel p pos : Nat}, p < ts.length →
      scanFrom ts c p fuel = some pos → pos < ts.length := by
  intro fuel
  induction fuel with
  | zero => intro p pos _ h; simp [scanFrom] at h
  | succ fuel ih =>
    intro p pos hp h
    rw [scanFrom] at h
    split_ifs at h with h1 h2
    · cases h; exact hp
    · exact ih (wrapIdx_lt (by omega) (by omega)) h

/-- If the record at `current` is not `Ready`, the scan never selects
`current` itself. -/
theorem scanFrom_some_ne {ts : List Thread} {c : Nat}
    (hc : (threadAt ts c).state ≠ State.Ready) :
    ∀ {fuel p pos : Nat}, scanFrom ts c p fuel = some pos → pos ≠ c := by
  intro fuel
  induction fuel with
  | zero => intro p pos h; simp [scanFrom] at h
  | succ fuel ih =>
    intro p pos h
    rw [scanFrom] at h
    split_ifs at h with h1 h2
    · cases h
      intro hpc
      exact hc (hpc ▸ h1)
    · exact ih h

/-- If no record other than the one at `current` is `Ready`, and `current`'s
record is not `Ready` either, the scan finds nothing. -/
theorem scanFrom_eq_none {ts : List Thread} {c : Nat}
    (hno : ∀ i, i ≠ c → (threadAt ts i).state ≠ State.Ready)
    (hc : (threadAt ts c).state ≠ State.Ready) :
    ∀ fuel p, scanFrom ts c p fuel = none := by
  intro fuel
  induction fuel with
  | zero => intro p; rfl
  | succ fuel ih =>
    intro p
    have hp : (threadAt ts p).state ≠ State.Ready := by
      by_cases hpc : p = c
      · exact hpc ▸ hc
      · exact hno p hpc
    rw [scanFrom]
    rw [if_neg hp]
    split
    · rfl
    · exact ih _

/-! ## The round-robin selection order described by the spec -/

/-- The selection order as the spec words it: scan the indices
`current + 1, current + 2, …` modulo the pool size in strictly increasing
order, wrapping around at most once (so the `pool size - 1` indices other
than `current`), and take the first whose record is `Ready`.  This
definition follows the spec's words and is compared against the source's
scan loop. -/
def specScan (ts : List Thread) (c : Nat) : Option Nat :=
  ((List.range (ts.length - 1)).map (fun k => (c + 1 + k) % ts.length)).find?
    (fun i => (threadAt ts i).state == State.Ready)

theorem scanFrom_spec_aux {ts : List Thread} {c : Nat} (hc : c < ts.length) :
    ∀ fuel j, j < ts.length - 1 → ts.length - 1 - j ≤ fuel →
      scanFrom ts c ((c + 1 + j) % ts.length) fuel =
        ((List.range' j (ts.length - 1 - j)).map
            (fun k => (c + 1 + k) % ts.length)).find?
          (fun i => (threadAt ts i).state == State.Ready) := by
  intro fuel
  induction fuel with
  | zero => intro j hj hfuel; omega
  | succ fuel ih =>
    intro j hj hfuel
    have hn : 2 ≤ ts.length := by omega
    have hq : (c + 1 + j) % ts.length < ts.length := Nat.mod_lt _ (by omega)
    have hrange : List.range' j (ts.length - 1 - j) =
        j :: List.range' (j + 1) (ts.length - 1 - (j + 1)) := by
      have h : ts.length - 1 - j = (ts.length - 1 - (j + 1)) + 1 := by omega
      rw [h, List.range'_succ]
    rw [scanFrom, hrange]
    simp only [List.map_cons]
    by_cases hready : (threadAt ts ((c + 1 + j) % ts.length)).state = State.Ready
    · rw [if_pos hready, List.find?_cons_of_pos _ (by simp [hready])]
    · rw [if_neg hready, List.find?_cons_of_neg _ (by simp [hready])]
      have hwrap : wrapIdx ts.length ((c + 1 + j) % ts.length + 1) =
          (c + 1 + (j + 1)) % ts.length := by
        rw [wrapIdx_eq_mod (by omega) (by omega)]
        have h : c + 1 + (j + 1) = (c + 1 + j) + 1 := by omega
        rw [h, Nat.add_mod (c + 1 + j) 1,
          Nat.mod_eq_of_lt (show 1 < ts.length by omega)]
      rw [hwrap]
      by_cases hlast : j + 2 = ts.length
      · have hloop : (c + 1 + (j + 1)) % ts.length = c := by
          have h : c + 1 + (j + 1) = c + ts.length := by omega
          rw [h, Nat.add_mod_right, Nat.mod_eq_of_lt hc]
        rw [if_pos hloop]
        have h0 : ts.length - 1 - (j + 1) = 0 := by omega
        rw [h0]
        rfl
      · have hne : (c + 1 + (j + 1)) % ts.length ≠ c := by
          have h : c + 1 + (j + 1) = c + (j + 2) := by omega
          rw [h]
          exact add_mod_ne_self hc (by omega) (by omega)
        rw [if_neg hne]
        exact ih (j + 1) (by omega) (by omega)

/-- The source's scan loop, started at `current` with full fuel, computes
exactly the spec's round-robin selection, whenever `current` is in range
and its record is not `Ready` (true at every actual call site: the record
at `current` is `Running` when `t_yield` is called from `run`/
`yield_thread`, and `Available` when called from `t_return`). -/
theorem scanFrom_eq_specScan {ts : List Thread} {c : Nat}
    (hc : c < ts.length) (hcur : (threadAt ts c).state ≠ State.Ready) :
    scanFrom ts c c (ts.length + 1) = specScan ts c := by
  rw [scanFrom, if_neg hcur]
  rcases Nat.lt_or_ge 1 ts.length with hn | hn
  · have hwrap : wrapIdx ts.length (c + 1) = (c + 1 + 0) % ts.length := by
      rw [wrapIdx_eq_mod (by omega) (by omega)]
    have hne : (c + 1 + 0) % ts.length ≠ c := by
      have h : c + 1 + 0 = c + 1 := by omega
      rw [h]
      exact add_mod_ne_self hc (by omega) (by omega)
    rw [hwrap, if_neg hne]
    rw [scanFrom_spec_aux hc ts.length 0 (by omega) (by omega)]
    unfold specScan
    rw [List.range_eq_range']
    rfl
  · have hn1 : ts.length = 1 := by omega
    have hc0 : c = 0 := by omega
    have hwrap : wrapIdx ts.length (c + 1) = c := by
      rw [hn1, hc0]
      rfl
    rw [if_pos hwrap]
    unfold specScan
    rw [hn1, hc0]
    rfl

/-! ## Completeness of the scan, and the shape of each operation -/

theorem threadAt_eq_getElem {ts : List Thread} {i : Nat} (h : i < ts.length) :
    threadAt ts i = ts[i] := by
  simp [threadAt, List.getD_eq_getElem?_getD, List.getElem?_eq_getElem h]

/-- Every in-range index other than `c` occurs in the spec's scan order. -/
theorem mem_specRange {n c i : Nat} (hc : c < n) (hi : i < n) (hne : i ≠ c) :
    ∃ j < n - 1, (c + 1 + j) % n = i := by
  rcases Nat.lt_or_ge c i with h | h
  · refine ⟨i - c - 1, by omega, ?_⟩
    rw [show c + 1 + (i - c - 1) = i by omega, Nat.mod_eq_of_lt hi]
  · refine ⟨n + i - c - 1, by omega, ?_⟩
    rw [show c + 1 + (n + i - c - 1) = i + n by omega, Nat.add_mod_right,
      Nat.mod_eq_of_lt hi]

/-- Completeness: if some in-range index other than `current` is `Ready`,
the selection finds one. -/
theorem selectNext_isSome {rt : Runtime}
    (hc : rt.current < rt.threads.length)
    (hcur : (threadAt rt.threads rt.current).state ≠ State.Ready)
    {i : Nat} (hi : i < rt.threads.length) (hine : i ≠ rt.current)
    (hready : (threadAt rt.threads i).state = State.Ready) :
    ∃ pos, selectNext rt = some pos := by
  unfold selectNext
  rw [scanFrom_eq_specScan hc hcur]
  cases h : specScan rt.threads rt.current with
  | some pos => exact ⟨pos, rfl⟩
  | none =>
    exfalso
    unfold specScan at h
    rw [List.find?_eq_none] at h
    obtain ⟨j, hj, hji⟩ := mem_specRange hc hi hine
    have hmem : i ∈ (List.range (rt.threads.length - 1)).map
        (fun k => (rt.current + 1 + k) % rt.threads.length) := by
      rw [List.mem_map]
      exact ⟨j, by rw [List.mem_range]; exact hj, hji⟩
    have := h i hmem
    simp [hready] at this

theorem t_yield_of_none {rt : Runtime} (hsel : selectNext rt = none) :
    t_yield rt = { rt := rt, ret := false, switches := [] } := by
  unfold t_yield
  rw [hsel]

theorem t_yield_of_some {rt : Runtime} {pos : Nat}
    (hsel : selectNext rt = some pos)
    (hdem : (threadAt rt.threads rt.current).state ≠ State.Available) :
    t_yield rt =
      { rt :=
          { threads :=
              (rt.threads.set rt.current
                { threadAt rt.threads rt.current with
                    state := State.Ready }).set pos
                { threadAt (rt.threads.set rt.current
                    { threadAt rt.threads rt.current with
                        state := State.Ready }) pos with
                    state := State.Running },
            current := pos },
        ret := decide (0 < rt.threads.length),
        switches := [(rt.current, pos)] } := by
  unfold t_yield
  rw [hsel]
  simp only [if_pos hdem, List.length_set]

theorem t_yield_of_some_avail {rt : Runtime} {pos : Nat}
    (hsel : selectNext rt = some pos)
    (hdem : (threadAt rt.threads rt.current).state = State.Available) :
    t_yield rt =
      { rt :=
          { threads := rt.threads.set pos
              { threadAt rt.threads pos with state := State.Running },
            current := pos },
        ret := decide (0 < rt.threads.length),
        switches := [(rt.current, pos)] } := by
  unfold t_yield
  rw [hsel]
  have h2 : ¬ ((threadAt rt.threads rt.current).state ≠ State.Available) :=
    not_not_intro hdem
  simp only [if_neg h2, List.length_set]

theorem t_return_of_ne {rt : Runtime} (hc0 : rt.current ≠ 0) :
    t_return rt =
      ((t_yield (markAvailable rt)).rt,
       (t_yield (markAvailable rt)).switches) := by
  unfold t_return
  rw [if_pos hc0]

theorem t_return_of_zero {rt : Runtime} (hc0 : rt.current = 0) :
    t_return rt = (rt, []) := by
  unfold t_return
  rw [if_neg (not_not_intro hc0)]

theorem spawn_of_none {rt : Runtime} {f : Nat}
    (hfind : rt.threads.findIdx? (fun t => t.state == State.Available) = none) :
    spawn rt f = Except.error ("no available thread.") := by
  unfold spawn
  rw [hfind]

theorem spawn_of_some {rt : Runtime} {f i : Nat}
    (hfind :
      rt.threads.findIdx? (fun t => t.state == State.Available) = some i) :
    spawn rt f = Except.ok { rt with
      threads := rt.threads.set i (primed (threadAt rt.threads i) f) } := by
  unfold spawn
  rw [hfind]

/-! ## The scheduler invariant is inductive -/

theorem Inv_new (bases : Nat → Nat) : Inv (Runtime.new bases) := by
  have hr : List.range' 1 (MAX_THREADS - 1) = [1, 2, 3] := rfl
  refine ⟨?_, ?_, ?_, ?_, ?_⟩
  · simp [Runtime.new, hr, MAX_THREADS]
  · simp [Runtime.new, hr]
  · simp [Runtime.new, threadAt]
  · intro i hi hne
    have hi4 : i < 4 := by
      simpa [Runtime.new, hr] using hi
    interval_cases i
    · exact absurd rfl hne
    · simp [Runtime.new, hr, threadAt, Thread.new]
    · simp [Runtime.new, hr, threadAt, Thread.new]
    · simp [Runtime.new, hr, threadAt, Thread.new]
  · simp [Runtime.new, threadAt]

theorem Inv_spawn {rt rt' : Runtime} {f : Nat} (h : Inv rt)
    (hok : spawn rt f = Except.ok rt') : Inv rt' := by
  obtain ⟨hlen, hcur, hrun, huniq, hbase⟩ := h
  cases hfind : rt.threads.findIdx? (fun t => t.state == State.Available) with
  | none => rw [spawn_of_none hfind] at hok; cases hok
  | some i =>
    rw [spawn_of_some hfind] at hok
    cases hok
    rw [List.findIdx?_eq_some_iff_getElem] at hfind
    obtain ⟨hi, hpi, _⟩ := hfind
    have havail : (threadAt rt.threads i).state = State.Available := by
      rw [threadAt_eq_getElem hi]
      simpa using hpi
    have hic : i ≠ rt.current := by
      intro hcontr
      rw [hcontr, hrun] at havail
      cases havail
    have hi0 : i ≠ 0 := by
      intro hcontr
      exact hbase (hcontr ▸ havail)
    refine ⟨by simpa using hlen, by simpa using hcur, ?_, ?_, ?_⟩
    · simpa [threadAt_set_ne hic] using hrun
    · intro j hj hjc
      simp only [List.length_set] at hj
      by_cases hji : j = i
      · subst hji
        rw [threadAt_set_self hi]
        simp [primed]
      · rw [threadAt_set_ne (fun hcontr => hji hcontr.symm)]
        exact huniq j hj hjc
    · rw [threadAt_set_ne hi0]
      exact hbase

theorem Inv_t_yield {rt : Runtime} (h : Inv rt) : Inv (t_yield rt).rt := by
  obtain ⟨hlen, hcur, hrun, huniq, hbase⟩ := h
  cases hsel : selectNext rt with
  | none =>
    rw [t_yield_of_none hsel]
    exact ⟨hlen, hcur, hrun, huniq, hbase⟩
  | some pos =>
    have hcurnr : (threadAt rt.threads rt.current).state ≠ State.Ready := by
      simp [hrun]
    have hready : (threadAt rt.threads pos).state = State.Ready :=
      scanFrom_some_ready hsel
    have hpos : pos < rt.threads.length := scanFrom_some_lt hcur hsel
    have hne : pos ≠ rt.current := scanFrom_some_ne hcurnr hsel
    rw [t_yield_of_some hsel (by simp [hrun])]
    have hc_ne_pos : rt.current ≠ pos := fun hcontr => hne hcontr.symm
    refine ⟨by simpa using hlen, by simpa using hpos, ?_, ?_, ?_⟩
    · rw [threadAt_set_self (by simpa using hpos)]
    · intro j hj hjpos
      simp only [List.length_set] at hj
      rw [threadAt_set_ne (fun hcontr => hjpos hcontr.symm)]
      by_cases hjc : j = rt.current
      · subst hjc
        rw [threadAt_set_self hcur]
        simp
      · rw [threadAt_set_ne (fun hcontr => hjc hcontr.symm)]
        exact huniq j hj hjc
    · by_cases h0 : 0 = pos
      · rw [← h0] at hpos ⊢
        rw [threadAt_set_self (by simpa using hpos)]
        simp
      · rw [threadAt_set_ne (fun hcontr => h0 hcontr.symm)]
        by_cases h0c : 0 = rt.current
        · rw [← h0c] at hcur ⊢
          rw [threadAt_set_self hcur]
          simp
        · rw [threadAt_set_ne (fun hcontr => h0c hcontr.symm)]
          exact hbase

theorem Inv_t_return {rt : Runtime} (h : Inv rt) : Inv (t_return rt).1 := by
  obtain ⟨hlen, hcur, hrun, huniq, hbase⟩ := h
  have hlen4 : rt.threads.length = 4 := hlen
  by_cases hc0 : rt.current = 0
  · rw [t_return_of_zero hc0]
    exact ⟨hlen, hcur, hrun, huniq, hbase⟩
  · rw [t_return_of_ne hc0]
    generalize hrt1 : markAvailable rt = rt1
    have hth1 : rt1.threads = rt.threads.set rt.current
        ({ threadAt rt.threads rt.current with
            state := State.Available }) := by
      rw [← hrt1, markAvailable]
    have hcur1e : rt1.current = rt.current := by
      rw [← hrt1, markAvailable]
    have hlen1 : rt1.threads.length = rt.threads.length := by
      rw [hth1, List.length_set]
    have hcur1 : rt1.current < rt1.threads.length := by
      rw [hlen1, hcur1e]; exact hcur
    have hcuravail : (threadAt rt1.threads rt1.current).state =
        State.Available := by
      rw [hth1, hcur1e, threadAt_set_self hcur]
    have hat0 : threadAt rt1.threads 0 = threadAt rt.threads 0 := by
      rw [hth1]
      exact threadAt_set_ne hc0
    have h0ready : (threadAt rt1.threads 0).state = State.Ready := by
      rw [hat0]
      rcases hstate : (threadAt rt.threads 0).state with _ | _ | _
      · exact absurd hstate hbase
      · exact absurd hstate
          (huniq 0 (by omega) (fun hcontr => hc0 hcontr.symm))
      · rfl
    obtain ⟨pos, hsel⟩ := selectNext_isSome hcur1
      (by rw [hcuravail]; simp) (by rw [hlen1]; omega)
      (by rw [hcur1e]; exact fun hcontr => hc0 hcontr.symm) h0ready
    have hready : (threadAt rt1.threads pos).state = State.Ready :=
      scanFrom_some_ready hsel
    have hpos : pos < rt1.threads.length := scanFrom_some_lt hcur1 hsel
    have hne : pos ≠ rt1.current :=
      scanFrom_some_ne (by rw [hcuravail]; simp) hsel
    rw [t_yield_of_some_avail hsel hcuravail]
    dsimp only
    refine ⟨?_, ?_, ?_, ?_, ?_⟩
    · simp only [List.length_set]
      rw [hlen1]; exact hlen
    · simpa using hpos
    · rw [threadAt_set_self hpos]
    · intro j hj hjpos
      simp only [List.length_set] at hj
      rw [threadAt_set_ne (fun hcontr => hjpos hcontr.symm)]
      rw [hth1] at hj ⊢
      simp only [List.length_set] at hj
      by_cases hjc : j = rt.current
      · subst hjc
        rw [threadAt_set_self hcur]
        simp
      · rw [threadAt_set_ne (fun hcontr => hjc hcontr.symm)]
        exact huniq j hj hjc
    · by_cases h0 : 0 = pos
      · rw [← h0] at hpos ⊢
        rw [threadAt_set_self hpos]
        simp
      · rw [threadAt_set_ne (fun hcontr => h0 hcontr.symm)]
        rw [h0ready]
        simp

/-- The scheduler invariant holds in every reachable state. -/
theorem reachable_inv {bases : Nat → Nat} {rt : Runtime}
    (h : Reachable bases rt) : Inv rt := by
  induction h with
  | new => exact Inv_new bases
  | step _ hstep ih =>
    cases hstep with
    | spawn f rt' hok => exact Inv_spawn ih hok
    | t_yield => exact Inv_t_yield ih
    | t_return => exact Inv_t_return ih

/-! ## Concrete runtimes used to instantiate the claim theorems -/

/-- A fresh runtime whose four stack buffers all sit at (abstract)
address 0. -/
def rtInit : Runtime := Runtime.new (fun _ => 0)

/-- The runtime after one successful `spawn` on `rtInit` (body address 7):
slot 1 is primed and `Ready`. -/
def rtSpawned : Runtime :=
  match spawn rtInit 7 with
  | Except.ok r => r
  | Except.error _ => rtInit

theorem rtSpawned_reachable : Reachable (fun _ => 0) rtSpawned :=
  Reachable.step Reachable.new (Step.spawn rtInit 7 rtSpawned rfl)

/-- A mid-run state: base thread `Running`, slots 1 and 2 `Ready`. -/
def demoRuntime : Runtime :=
  { threads :=
      [{ Thread.new 0 0 with state := State.Running },
       { Thread.new 1 0 with state := State.Ready },
       { Thread.new 2 0 with state := State.Ready },
       Thread.new 3 0],
    current := 0 }

/-- A mid-run state in which a spawned thread (slot 1) is executing. -/
def rtOne : Runtime :=
  { threads :=
      [{ Thread.new 0 0 with state := State.Ready },
       { Thread.new 1 0 with state := State.Running },
       { Thread.new 2 0 with state := State.Ready },
       Thread.new 3 0],
    current := 1 }

/-! ## The claims -/

/-- Claim C1. For every reachable state of the Runtime (reached from
construction by any sequence of `spawn`, `t_yield`, and `t_return`
operations, observed at operation boundaries), exactly one thread record
has state `Running`, and `current` is in range and indexes that record. -/
theorem C1_exactly_one_running {bases : Nat → Nat} {rt : Runtime}
    (h : Reachable bases rt) :
    rt.current < rt.threads.length ∧
    (threadAt rt.threads rt.current).state = State.Running ∧
    ∀ i < rt.threads.length,
      (threadAt rt.threads i).state = State.Running → i = rt.current := by
  obtain ⟨_, hcur, hrun, huniq, _⟩ := reachable_inv h
  refine ⟨hcur, hrun, fun i hi hstate => ?_⟩
  by_contra hne
  exact huniq i hi hne hstate

theorem C1_exactly_one_running_witness :
    rtInit.current < rtInit.threads.length ∧
    (threadAt rtInit.threads rtInit.current).state = State.Running ∧
    ∀ i < rtInit.threads.length,
      (threadAt rtInit.threads i).state = State.Running →
        i = rtInit.current :=
  C1_exactly_one_running Reachable.new

/-- Claim C2. The operation `t_yield` selects as the next thread exactly the first `Ready`
record of the scan that starts at index `current + 1` modulo the pool size
and proceeds in strictly increasing index order, wrapping around at most
once (`specScan`, written from the spec's words).  The hypotheses hold at
every actual call site: the record at `current` is `Running` when `t_yield`
is entered from `run`/`yield_thread` (claim C1) and `Available` when it is
entered from `t_return`; in neither case is it `Ready`. -/
theorem C2_round_robin_selection (rt : Runtime)
    (hc : rt.current < rt.threads.length)
    (hcur : (threadAt rt.threads rt.current).state ≠ State.Ready) :
    selectNext rt = specScan rt.threads rt.current :=
  scanFrom_eq_specScan hc hcur

theorem C2_round_robin_selection_witness :
    selectNext demoRuntime = specScan demoRuntime.threads demoRuntime.current :=
  C2_round_robin_selection demoRuntime (by decide) (by decide)

/-- Claim C3. In every reachable state, a `t_yield` call never makes the
record at `current` the destination of the context switch it performs. -/
theorem C3_never_switches_to_current {bases : Nat → Nat} {rt : Runtime}
    (h : Reachable bases rt) :
    ∀ sd ∈ (t_yield rt).switches, sd.2 ≠ rt.current := by
  obtain ⟨_, _, hrun, _, _⟩ := reachable_inv h
  cases hsel : selectNext rt with
  | none =>
    rw [t_yield_of_none hsel]
    intro sd hsd
    simp at hsd
  | some pos =>
    rw [t_yield_of_some hsel (by simp [hrun])]
    intro sd hsd
    simp only [List.mem_singleton] at hsd
    subst hsd
    exact scanFrom_some_ne (by simp [hrun]) hsel

theorem C3_never_switches_to_current_witness :
    ((0, 1) : Nat × Nat).2 ≠ rtSpawned.current :=
  C3_never_switches_to_current rtSpawned_reachable (0, 1) (by decide)

/-- Claim C4. If no record other than the one at `current` is `Ready` (and
`current` is in range with a non-`Ready` record, as in every reachable
state), `t_yield` returns `false`, performs no switch, and leaves the
runtime unchanged. -/
theorem C4_no_work_no_change {rt : Runtime}
    (hc : rt.current < rt.threads.length)
    (hcur : (threadAt rt.threads rt.current).state ≠ State.Ready)
    (hno : ∀ i < rt.threads.length,
      i ≠ rt.current → (threadAt rt.threads i).state ≠ State.Ready) :
    t_yield rt = { rt := rt, ret := false, switches := [] } := by
  apply t_yield_of_none
  apply scanFrom_eq_none _ hcur
  intro i hine
  by_cases hi : i < rt.threads.length
  · exact hno i hi hine
  · rw [threadAt_of_len_le (by omega)]
    decide

theorem C4_no_work_no_change_witness :
    t_yield rtInit = { rt := rtInit, ret := false, switches := [] } :=
  C4_no_work_no_change (by decide) (by decide) (by decide)

/-- Claim C5. When `t_yield` finds a `Ready` record at `pos`, it leaves the
old current record `Available` if it was `Available` and demotes it to
`Ready` otherwise, promotes the record at `pos` to `Running`, moves
`current` to `pos`, and invokes the context-switch primitive exactly once,
with the old record's context as source and the new record's context as
destination (the switch log is exactly `[(old current, pos)]`). -/
theorem C5_switch_effects {rt : Runtime} {pos : Nat}
    (hc : rt.current < rt.threads.length)
    (hcur : (threadAt rt.threads rt.current).state ≠ State.Ready)
    (hsel : selectNext rt = some pos) :
    (threadAt (t_yield rt).rt.threads rt.current).state =
        (if (threadAt rt.threads rt.current).state = State.Available
         then State.Available else State.Ready) ∧
    (threadAt (t_yield rt).rt.threads pos).state = State.Running ∧
    (t_yield rt).rt.current = pos ∧
    (t_yield rt).switches = [(rt.current, pos)] := by
  have hne : pos ≠ rt.current := scanFrom_some_ne hcur hsel
  have hpos : pos < rt.threads.length := scanFrom_some_lt hc hsel
  by_cases hav : (threadAt rt.threads rt.current).state = State.Available
  · rw [t_yield_of_some_avail hsel hav]
    refine ⟨?_, ?_, rfl, rfl⟩
    · rw [threadAt_set_ne hne, if_pos hav, hav]
    · rw [threadAt_set_self hpos]
  · rw [t_yield_of_some hsel hav]
    refine ⟨?_, ?_, rfl, rfl⟩
    · rw [threadAt_set_ne hne, threadAt_set_self hc, if_neg hav]
    · rw [threadAt_set_self (by simpa using hpos)]

theorem C5_switch_effects_witness :
    (threadAt (t_yield rtSpawned).rt.threads rtSpawned.current).state =
        (if (threadAt rtSpawned.threads rtSpawned.current).state =
            State.Available
         then State.Available else State.Ready) ∧
    (threadAt (t_yield rtSpawned).rt.threads 1).state = State.Running ∧
    (t_yield rtSpawned).rt.current = 1 ∧
    (t_yield rtSpawned).switches = [(rtSpawned.current, 1)] :=
  C5_switch_effects (by decide) (by decide) (by decide)

/-- Claim C6. The operation `spawn` fails with the fatal message `no available thread.` if
and only if no record in the pool has state `Available`; there is no retry
and no queueing (the failure is the whole outcome of the call). -/
theorem C6_spawn_exhaustion (rt : Runtime) (f : Nat) :
    spawn rt f = Except.error ("no available thread.") ↔
      ∀ i < rt.threads.length,
        (threadAt rt.threads i).state ≠ State.Available := by
  cases hfind : rt.threads.findIdx? (fun t => t.state == State.Available) with
  | none =>
    rw [spawn_of_none hfind]
    rw [List.findIdx?_eq_none_iff] at hfind
    refine ⟨fun _ i hi => ?_, fun _ => rfl⟩
    have hmem : threadAt rt.threads i ∈ rt.threads := by
      rw [threadAt_eq_getElem hi]
      exact List.getElem_mem hi
    simpa using hfind _ hmem
  | some i =>
    rw [spawn_of_some hfind]
    rw [List.findIdx?_eq_some_iff_getElem] at hfind
    obtain ⟨hi, hpi, _⟩ := hfind
    refine ⟨fun hcontr => Except.noConfusion hcontr, fun hall => ?_⟩
    exfalso
    apply hall i hi
    rw [threadAt_eq_getElem hi]
    simpa using hpi

/-- Claim C7. A successful `spawn f` on the record at index `i` (the one the
`Available`-scan finds), whose stack buffer has length `size ≥ 32`, writes
exactly two words near the top of that stack — `guard`'s address at byte
offset `size - 24` and `f`'s address one word (8 bytes) below it at
`size - 32` — sets the record's saved `rsp` to the address of the lower
(`f`) word, and marks the record `Ready`. -/
theorem C7_spawn_priming {rt : Runtime} {f i : Nat} {rt' : Runtime}
    (hfind :
      rt.threads.findIdx? (fun t => t.state == State.Available) = some i)
    (hok : spawn rt f = Except.ok rt')
    (hsz : 32 ≤ (threadAt rt.threads i).stackLen) :
    (threadAt rt'.threads i).stackWrites =
        (threadAt rt.threads i).stackWrites ++
          [((threadAt rt.threads i).stackLen - 24, CodeAddr.guard),
           ((threadAt rt.threads i).stackLen - 32, CodeAddr.body f)] ∧
    (threadAt rt.threads i).stackLen - 24 =
        ((threadAt rt.threads i).stackLen - 32) + 8 ∧
    (threadAt rt'.threads i).ctx.rsp =
        (threadAt rt.threads i).stackBase +
          ((threadAt rt.threads i).stackLen - 32) ∧
    (threadAt rt'.threads i).state = State.Ready := by
  have hi : i < rt.threads.length := by
    rw [List.findIdx?_eq_some_iff_getElem] at hfind
    exact hfind.1
  rw [spawn_of_some hfind] at hok
  cases hok
  refine ⟨?_, by omega, ?_, ?_⟩ <;> rw [threadAt_set_self hi] <;> rfl

theorem C7_spawn_priming_witness :
    (threadAt rtSpawned.threads 1).stackWrites =
        (threadAt rtInit.threads 1).stackWrites ++
          [((threadAt rtInit.threads 1).stackLen - 24, CodeAddr.guard),
           ((threadAt rtInit.threads 1).stackLen - 32, CodeAddr.body 7)] ∧
    (threadAt rtInit.threads 1).stackLen - 24 =
        ((threadAt rtInit.threads 1).stackLen - 32) + 8 ∧
    (threadAt rtSpawned.threads 1).ctx.rsp =
        (threadAt rtInit.threads 1).stackBase +
          ((threadAt rtInit.threads 1).stackLen - 32) ∧
    (threadAt rtSpawned.threads 1).state = State.Ready :=
  @C7_spawn_priming rtInit 7 1 rtSpawned (by decide) rfl (by decide)

/-- Claim C8 fails on the code: `spawn` computes the saved stack
pointer as `stack base + (size - 32)`.  The offset `size - 32` is a
multiple of 16, but a `Vec<u8>` buffer's base address has alignment 1, so
the result does not lie on a 16-byte boundary for every possible base
address: with all stack buffers based at address 8, the primed record's
saved `rsp` is ≡ 8 (mod 16). -/
theorem C8_rsp_misaligned :
    ∃ rt', spawn (Runtime.new (fun _ => 8)) 7 = Except.ok rt' ∧
      (threadAt rt'.threads 1).ctx.rsp % 16 = 8 := by
  refine ⟨_, rfl, ?_⟩
  decide

/-- Claim C9. The operation `t_return` on a non-base slot marks the current record
`Available` (and nothing else) and immediately performs `t_yield`; on the
base slot (`current = 0`) it changes nothing — no record is marked
`Available` and no switch is performed. -/
theorem C9_t_return_behavior (rt : Runtime) :
    (rt.current = 0 → t_return rt = (rt, [])) ∧
    (rt.current ≠ 0 →
      t_return rt =
        ((t_yield (markAvailable rt)).rt,
         (t_yield (markAvailable rt)).switches)) :=
  ⟨t_return_of_zero, t_return_of_ne⟩

theorem C9_t_return_behavior_witness :
    t_return rtInit = (rtInit, []) ∧
    t_return rtOne =
      ((t_yield (markAvailable rtOne)).rt,
       (t_yield (markAvailable rtOne)).switches) :=
  ⟨(C9_t_return_behavior rtInit).1 rfl,
   (C9_t_return_behavior rtOne).2 (by decide)⟩

/-- Claim C10. A successful `spawn` picks the `Available` record with the
lowest pool index and mutates only that record — and of it only the stack
write log, the saved `rsp`, and the state tag: every other record, the pool
size, the `current` index, and the chosen record's id, stack base, stack
length and remaining registers are unchanged. -/
theorem C10_spawn_frame {rt : Runtime} {f : Nat} {rt' : Runtime}
    (hok : spawn rt f = Except.ok rt') :
    ∃ i < rt.threads.length,
      (threadAt rt.threads i).state = State.Available ∧
      (∀ j < i, (threadAt rt.threads j).state ≠ State.Available) ∧
      rt'.threads.length = rt.threads.length ∧
      rt'.current = rt.current ∧
      (∀ j < rt.threads.length, j ≠ i →
        threadAt rt'.threads j = threadAt rt.threads j) ∧
      (threadAt rt'.threads i).id = (threadAt rt.threads i).id ∧
      (threadAt rt'.threads i).stackBase =
        (threadAt rt.threads i).stackBase ∧
      (threadAt rt'.threads i).stackLen =
        (threadAt rt.threads i).stackLen ∧
      (threadAt rt'.threads i).ctx.r15 = (threadAt rt.threads i).ctx.r15 ∧
      (threadAt rt'.threads i).ctx.r14 = (threadAt rt.threads i).ctx.r14 ∧
      (threadAt rt'.threads i).ctx.r13 = (threadAt rt.threads i).ctx.r13 ∧
      (threadAt rt'.threads i).ctx.r12 = (threadAt rt.threads i).ctx.r12 ∧
      (threadAt rt'.threads i).ctx.rbx = (threadAt rt.threads i).ctx.rbx ∧
      (threadAt rt'.threads i).ctx.rbp = (threadAt rt.threads i).ctx.rbp := by
  cases hfind : rt.threads.findIdx? (fun t => t.state == State.Available) with
  | none =>
    rw [spawn_of_none hfind] at hok
    cases hok
  | some i =>
    rw [spawn_of_some hfind] at hok
    cases hok
    rw [List.findIdx?_eq_some_iff_getElem] at hfind
    obtain ⟨hi, hpi, hmin⟩ := hfind
    refine ⟨i, hi, ?_, ?_, by simp, rfl, ?_, ?_⟩
    · rw [threadAt_eq_getElem hi]
      simpa using hpi
    · intro j hj
      have hjlen : j < rt.threads.length := by omega
      rw [threadAt_eq_getElem hjlen]
      simpa using hmin j hj
    · intro j hj hjne
      exact threadAt_set_ne (fun hcontr => hjne hcontr.symm)
    · rw [threadAt_set_self hi]
      exact ⟨rfl, rfl, rfl, rfl, rfl, rfl, rfl, rfl, rfl⟩

theorem C10_spawn_frame_witness :
    ∃ i < rtInit.threads.length,
      (threadAt rtInit.threads i).state = State.Available ∧
      (∀ j < i, (threadAt rtInit.threads j).state ≠ State.Available) ∧
      rtSpawned.threads.length = rtInit.threads.length ∧
      rtSpawned.current = rtInit.current ∧
      (∀ j < rtInit.threads.length, j ≠ i →
        threadAt rtSpawned.threads j = threadAt rtInit.threads j) ∧
      (threadAt rtSpawned.threads i).id = (threadAt rtInit.threads i).id ∧
      (threadAt rtSpawned.threads i).stackBase =
        (threadAt rtInit.threads i).stackBase ∧
      (threadAt rtSpawned.threads i).stackLen =
        (threadAt rtInit.threads i).stackLen ∧
      (threadAt rtSpawned.threads i).ctx.r15 =
        (threadAt rtInit.threads i).ctx.r15 ∧
      (threadAt rtSpawned.threads i).ctx.r14 =
        (threadAt rtInit.threads i).ctx.r14 ∧
      (threadAt rtSpawned.threads i).ctx.r13 =
        (threadAt rtInit.threads i).ctx.r13 ∧
      (threadAt rtSpawned.threads i).ctx.r12 =
        (threadAt rtInit.threads i).ctx.r12 ∧
      (threadAt rtSpawned.threads i).ctx.rbx =
        (threadAt rtInit.threads i).ctx.rbx ∧
      (threadAt rtSpawned.threads i).ctx.rbp =
        (threadAt rtInit.threads i).ctx.rbp :=
  @C10_spawn_frame rtInit 7 rtSpawned rfl

end GreenThreads
